import Mathlib

/-!
Verification of the multi-chain DEX trade aggregation and signal-scoring
engine (crypto_trader_bot): chain-name normalization (`config.py`),
family-specific query construction (`bitquery_service.py`), trade-record
aggregation, per-symbol price-change derivation and confidence-scored
suggestion ranking (`dex_agent.py`).

Python `Decimal` values are modelled as `Rat` (exact rational arithmetic);
Python dicts that are mutated key-by-key are modelled as association lists;
Python sets used only for membership and cardinality are modelled as
duplicate-free lists.
-/

/- `Rat.add`/`Rat.mul`/`Rat.inv`/`Rat.sub` ship `[irreducible]`, which blocks
the `decide` evaluator on concrete rational test values; restore the default
reducibility for this file (the kernel ignores the attribute either way). -/
attribute [local semireducible] Rat.add Rat.mul Rat.inv Rat.sub

/-! ### Python string primitives -/

/-- Python `str.lower()` (ASCII range, which covers all registry keys). -/
def pyLower (s : String) : String := ⟨s.data.map Char.toLower⟩

/-- Python `str.strip()`: remove leading and trailing whitespace. -/
def pyStrip (s : String) : String :=
  ⟨((s.data.dropWhile Char.isWhitespace).reverse.dropWhile Char.isWhitespace).reverse⟩

/-! ### Chain registry (`config.py`) -/

/-- `ChainConfig` named tuple from `config.py`. -/
structure ChainConfig where
  name : String
  url_path : String
  native_token : String
  explorer : String
deriving DecidableEq

/-- The `SUPPORTED_CHAINS` table from `config.py`, in declaration order. -/
def SUPPORTED_CHAINS : List (String × ChainConfig) :=
  [("solana", ⟨"Solana", "solana", "SOL", "https://solscan.io"⟩),
   ("eth", ⟨"Ethereum", "eth", "ETH", "https://etherscan.io"⟩),
   ("tron", ⟨"Tron", "tron", "TRX", "https://tronscan.org"⟩),
   ("ton", ⟨"TON", "ton", "TON", "https://tonscan.org"⟩),
   ("base", ⟨"Base", "base", "ETH", "https://basescan.org"⟩),
   ("matic", ⟨"Polygon", "matic", "MATIC", "https://polygonscan.com"⟩),
   ("bsc", ⟨"BSC", "bsc", "BNB", "https://bscscan.com"⟩),
   ("opbnb", ⟨"opBNB", "opbnb", "BNB", "https://opbnbscan.com"⟩),
   ("optimism", ⟨"Optimism", "optimism", "ETH", "https://optimistic.etherscan.io"⟩),
   ("arbitrum", ⟨"Arbitrum", "arbitrum", "ETH", "https://arbiscan.io"⟩)]

/-- The `CHAIN_ALIASES` table from `config.py`. -/
def CHAIN_ALIASES : List (String × String) :=
  [("ethereum", "eth"),
   ("ether", "eth"),
   ("binance", "bsc"),
   ("binance smart chain", "bsc"),
   ("polygon", "matic"),
   ("sol", "solana"),
   ("opt", "optimism"),
   ("arb", "arbitrum")]

/-- `normalize_chain_name` from `config.py`:
`chain.lower().strip()` then `CHAIN_ALIASES.get(chain, chain)`. -/
def normalize_chain_name (chain : String) : String :=
  let c := pyStrip (pyLower chain)
  (CHAIN_ALIASES.lookup c).getD c

/-- `get_chain_id` from `config.py`; the `ValueError` raise is modelled as
`none`. -/
def get_chain_id (chain : String) : Option String :=
  let n := normalize_chain_name chain
  if (SUPPORTED_CHAINS.lookup n).isSome then some n else none

/-- `validate_chain` from `config.py`. -/
def validate_chain (chain : String) : Bool := (get_chain_id chain).isSome

example : get_chain_id "  ETHEREUM " = some "eth" := by decide
example : get_chain_id "doge" = none := by decide

/-! ### Python `Decimal` string parsing

`Decimal(str(x))` on feed values. Finite numeric strings (optional sign,
digits with at most one decimal point, optional exponent) are modelled;
the special values `NaN`/`Infinity` are outside the model (no registry
input or claim involves them). Surrounding whitespace is stripped, as the
`Decimal` constructor does. -/

/-- Value of a digit string. -/
def digitsVal (ds : List Char) : Nat := ds.foldl (fun n c => 10 * n + (c.toNat - 48)) 0

/-- Parse `digits[.digits]` (at least one digit overall). -/
def parseMantissa (l : List Char) : Option Rat :=
  match l.splitOn '.' with
  | [ip] => if ip ≠ [] ∧ ip.all Char.isDigit then some (digitsVal ip) else none
  | [ip, fp] =>
      if (ip ≠ [] ∨ fp ≠ []) ∧ ip.all Char.isDigit ∧ fp.all Char.isDigit then
        some ((digitsVal ip : Rat) + (digitsVal fp : Rat) / (10 : Rat) ^ fp.length)
      else none
  | _ => none

/-- Split a numeric string at the first `e`/`E`, if any. -/
def splitExponent : List Char → List Char × Option (List Char)
  | [] => ([], none)
  | c :: rest =>
      if c = 'e' ∨ c = 'E' then ([], some rest)
      else
        let (m, e) := splitExponent rest
        (c :: m, e)

/-- Parse an exponent part: optional sign then digits. -/
def parseExponent (l : List Char) : Option Int :=
  match l with
  | '+' :: ds => if ds ≠ [] ∧ ds.all Char.isDigit then some (digitsVal ds) else none
  | '-' :: ds => if ds ≠ [] ∧ ds.all Char.isDigit then some (-(digitsVal ds : Int)) else none
  | ds => if ds ≠ [] ∧ ds.all Char.isDigit then some (digitsVal ds) else none

/-- Parse an unsigned decimal string, with optional exponent. -/
def parseUnsignedDec (l : List Char) : Option Rat :=
  match splitExponent l with
  | (m, none) => parseMantissa m
  | (m, some ex) =>
      match parseMantissa m, parseExponent ex with
      | some q, some i => some (q * (10 : Rat) ^ i)
      | _, _ => none

/-- `Decimal(s)` on a finite numeric string; `InvalidOperation` is `none`. -/
def parseDecimal (s : String) : Option Rat :=
  match (pyStrip s).data with
  | '+' :: rest => parseUnsignedDec rest
  | '-' :: rest => (parseUnsignedDec rest).map Neg.neg
  | l => parseUnsignedDec l

example : parseDecimal "100.5" = some (201 / 2) := by decide
example : parseDecimal "not-a-number" = none := by decide
example : parseDecimal "0" = some 0 := by decide
example : parseDecimal "-6" = some (-6) := by decide
example : parseDecimal "1.5e2" = some 150 := by decide
example : parseDecimal "" = none := by decide

/-! ### Trade records and aggregation (`dex_agent.py`, `analyze_market`)

A feed record's relevant fields, after `str(...)`-conversion of the raw
JSON values: `trade["Trade"]["Buy"/"Sell"/"Dex"]`. A `none` field models a
missing key (`dict.get` default); numeric fields are carried as the raw
strings handed to `Decimal`. -/

/-- One leg (`Buy` or `Sell`) of a feed trade record. -/
structure TradeLeg where
  amount : Option String
  symbol : Option String
  price : Option String
deriving DecidableEq

/-- One feed trade record. -/
structure TradeRecord where
  buy : TradeLeg
  sell : TradeLeg
  dexName : Option String
deriving DecidableEq

/-- `str(leg.get("Amount", 0))` / `str(leg.get("Price", 0))`: a missing
field defaults to the integer `0`, whose `str` is `"0"`. -/
def rawOrZero (o : Option String) : String := o.getD "0"

/-- The `analysis` accumulator of `analyze_market` after the main pass
(price series still raw). Python sets are duplicate-free lists, the
insertion-ordered `price_changes` dict an association list. -/
structure Analysis where
  total_trades : Nat
  volume_24h : Rat
  active_pairs : List (String × String)
  active_dexes : List String
  price_changes : List (String × List Rat)
deriving DecidableEq

/-- `set.add`: no-op when the element is present. -/
def setInsert {α : Type} [DecidableEq α] (l : List α) (x : α) : List α :=
  if x ∈ l then l else l ++ [x]

/-- Append a price to a symbol's series, creating the entry on first sight
(insertion-ordered dict update). -/
def appendPrice (m : List (String × List Rat)) (s : String) (p : Rat) :
    List (String × List Rat) :=
  match m with
  | [] => [(s, [p])]
  | (k, ps) :: rest =>
      if k = s then (k, ps ++ [p]) :: rest else (k, ps) :: appendPrice rest s p

/-- The body of the per-trade loop in `analyze_market`. A failing
`Decimal` parse of the buy amount raises and is caught by the per-trade
`except`, skipping the whole record; a failing price parse is caught by
the inner `except` after volume/pair/venue were already accumulated. -/
def processTrade (a : Analysis) (t : TradeRecord) : Analysis :=
  match parseDecimal (rawOrZero t.buy.amount) with
  | none => a
  | some buyAmount =>
    let a1 := { a with volume_24h := a.volume_24h + buyAmount }
    let a2 :=
      match t.buy.symbol, t.sell.symbol with
      | some bs, some ss =>
          if bs ≠ "" ∧ ss ≠ "" then
            { a1 with active_pairs := setInsert a1.active_pairs (bs, ss) }
          else a1
      | _, _ => a1
    let a3 :=
      match t.dexName with
      | some d => if d ≠ "" then { a2 with active_dexes := setInsert a2.active_dexes d } else a2
      | none => a2
    match parseDecimal (rawOrZero t.buy.price) with
    | none => a3
    | some price =>
      match t.buy.symbol with
      | some sym =>
          if sym ≠ "" ∧ 0 < price then
            { a3 with price_changes := appendPrice a3.price_changes sym price }
          else a3
      | none => a3

/-- The main aggregation pass of `analyze_market`: `total_trades` is
`len(trades)` from the start; the loop folds `processTrade`. -/
def aggregatePass (trades : List TradeRecord) : Analysis :=
  trades.foldl processTrade
    { total_trades := trades.length, volume_24h := 0, active_pairs := [],
      active_dexes := [], price_changes := [] }

/-! ### Price-change derivation (second pass of `analyze_market`) -/

/-- A value stored in the per-symbol `price_changes` dict. -/
inductive PyVal where
  | num (q : Rat)
  | list (qs : List Rat)
deriving DecidableEq

/-- `d[k] = v` on an association-list dict. -/
def setKey (l : List (String × PyVal)) (k : String) (v : PyVal) : List (String × PyVal) :=
  match l with
  | [] => [(k, v)]
  | (k0, v0) :: rest => if k0 = k then (k0, v) :: rest else (k0, v0) :: setKey rest k v

/-- `d.pop(k)` (result dict only). -/
def popKey (l : List (String × PyVal)) (k : String) : List (String × PyVal) :=
  l.filter (fun p => p.1 != k)

/-- The change computation done when a series has ≥ 2 entries:
`(last − first) / first * 100`, with the `ZeroDivisionError` /
`InvalidOperation` handler (`first == 0`) landing on `0`. -/
def change24hCalc (prices : List Rat) : Rat :=
  let first := prices.headD 0
  if first = 0 then 0 else (prices.getLastD 0 - first) / first * 100

/-- Final `change_24h` value for a series (0 when fewer than 2 entries). -/
def change24h (prices : List Rat) : Rat :=
  if 2 ≤ prices.length then change24hCalc prices else 0

/-- Per-symbol finalization: the dict starts as
`{"prices": [...], "change_24h": 0}`; with ≥ 2 prices `change_24h` is
overwritten; finally `"prices"` is popped. -/
def derivePriceEntry (prices : List Rat) : List (String × PyVal) :=
  let d : List (String × PyVal) := [("prices", PyVal.list prices), ("change_24h", PyVal.num 0)]
  let d := if 2 ≤ prices.length then setKey d "change_24h" (PyVal.num (change24hCalc prices)) else d
  popKey d "prices"

/-- The value `analyze_market` returns (sets already list-converted,
price series replaced by their derived per-symbol dicts). -/
structure MarketAnalysis where
  total_trades : Nat
  volume_24h : Rat
  active_pairs : List (String × String)
  active_dexes : List String
  price_changes : List (String × List (String × PyVal))
deriving DecidableEq

/-- `analyze_market` on an already-fetched trade list. -/
def analyze_market (trades : List TradeRecord) : MarketAnalysis :=
  let a := aggregatePass trades
  { total_trades := a.total_trades, volume_24h := a.volume_24h,
    active_pairs := a.active_pairs, active_dexes := a.active_dexes,
    price_changes := a.price_changes.map (fun p => (p.1, derivePriceEntry p.2)) }

example : derivePriceEntry [100, 110] = [("change_24h", PyVal.num 10)] := by decide
example : derivePriceEntry [100] = [("change_24h", PyVal.num 0)] := by decide
example : derivePriceEntry [0, 50] = [("change_24h", PyVal.num 0)] := by decide
example :
    aggregatePass [⟨⟨some "100.5", some "ABC", some "1.5"⟩, ⟨some "3", some "XYZ", some "2"⟩, some "UniswapV3"⟩] =
      ⟨1, 201 / 2, [("ABC", "XYZ")], ["UniswapV3"], [("ABC", [3 / 2])]⟩ := by decide

/-! ### Query construction (`bitquery_service.py`)

Only the request-building part of `get_chain_activity` is modelled (the
actual HTTP round trip is transport glue). Aware UTC datetimes are encoded
as seconds since the Unix epoch; `timedelta(minutes=w)` subtraction on
aware datetimes is exact arithmetic on that axis. -/

/-- `_get_chain_query`: (GraphQL namespace, token-identity field name). -/
def get_chain_query (chain : String) : String × String :=
  if chain = "solana" then ("Solana", "MintAddress")
  else if chain = "tron" then ("Tron", "Address")
  else if chain = "ton" then ("TON", "Address")
  else ("EVM", "SmartContract")

/-- Days since 1970-01-01 of a proleptic-Gregorian civil date
(Hinnant's algorithm), used to encode UTC datetimes as integers. -/
def daysFromCivil (y m d : Int) : Int :=
  let y := if m ≤ 2 then y - 1 else y
  let era := (if 0 ≤ y then y else y - 399) / 400
  let yoe := y - era * 400
  let doy := (153 * (if 2 < m then m - 3 else m + 9) + 2) / 5 + d - 1
  let doe := yoe * 365 + yoe / 4 - yoe / 100 + doy
  era * 146097 + doe - 719468

/-- Seconds since the Unix epoch of a UTC civil datetime. -/
def epochOfUTC (y mo d h mi s : Int) : Int :=
  daysFromCivil y mo d * 86400 + h * 3600 + mi * 60 + s

/-- `now - timedelta(minutes=timeWindow)`. -/
def timeAgo (now timeWindow : Int) : Int := now - timeWindow * 60

/-- The structured content of the GraphQL request built by
`get_chain_activity`: namespace, token-identity field interpolated into the
trade fields, the optional `network` variable, and the `since` boundary. -/
structure QuerySpec where
  ns : String
  addressField : String
  network : Option String
  since : Int
deriving DecidableEq

/-- Request construction in `get_chain_activity(chain, time_window)` with an
injected clock `now`: chain is normalized, namespace/field chosen by
`_get_chain_query`, and the `network` variable (`chain.lower()`) is present
exactly on the EVM branch. An unresolvable chain raises (`none`). -/
def get_chain_activity_query (chain : String) (now timeWindow : Int) : Option QuerySpec :=
  let sinceT := timeAgo now timeWindow
  match get_chain_id chain with
  | none => none
  | some cid =>
    let nsField := get_chain_query cid
    some { ns := nsField.1, addressField := nsField.2,
           network := if nsField.1 = "EVM" then some (pyLower cid) else none,
           since := sinceT }

/-! ### Trade suggestions (`dex_agent.py`, `suggest_trades` and
`format_trade_url`) -/

/-- `format_trade_url`: validates the chain, then a pure string template.
The raised `ValueError` on an unsupported chain is `none`. -/
def format_trade_url (chain tokenA tokenB : String) : Option String :=
  match get_chain_id chain with
  | none => none
  | some cid =>
      match SUPPORTED_CHAINS.lookup cid with
      | none => none
      | some cfg =>
          some ("https://dexrabbit.com/" ++ cfg.url_path ++ "/pair/" ++ tokenA ++ "/" ++ tokenB)

/-- One emitted trade suggestion. The rationale string list and the
`signals` echo dict are presentation fields no claim touches; they are not
carried. -/
structure Suggestion where
  token : String
  action : String
  confidence : Nat
  trade_url : String
deriving DecidableEq

/-- The additive confidence computation of the suggestion loop: the four
threshold signals contribute 20/30/25/25 points. -/
def confidenceOf (m : MarketAnalysis) (change : Rat) : Nat :=
  (if 5 < |change| then 20 else 0) + (if 10000 < m.volume_24h then 30 else 0) +
    (if 50 < m.total_trades then 25 else 0) + (if 5 < m.active_pairs.length then 25 else 0)

/-- The per-symbol body of the suggestion loop: the four threshold signals,
additive confidence, the `confidence >= 60` acceptance gate, action by sign
of the change, and the DexRabbit URL against the chain's native token.
`none` covers both the failed gate and the caught per-symbol exceptions. -/
def mkSuggestionFor (chainId : String) (m : MarketAnalysis) (symbol : String)
    (change : Rat) : Option Suggestion :=
  let confidence : Nat := confidenceOf m change
  if 60 ≤ confidence then
    match SUPPORTED_CHAINS.lookup chainId with
    | none => none
    | some cfg =>
        match format_trade_url chainId symbol cfg.native_token with
        | none => none
        | some url =>
            some { token := symbol, action := if change < 0 then "buy" else "sell",
                   confidence := confidence, trade_url := url }
  else none

/-- One iteration of the suggestion loop: read the symbol's derived
`change_24h`, emit its suggestion if accepted. -/
def buildStep (chainId : String) (m : MarketAnalysis) (acc : List Suggestion)
    (p : String × List (String × PyVal)) : List Suggestion :=
  match p.2.lookup "change_24h" with
  | some (PyVal.num c) =>
      match mkSuggestionFor chainId m p.1 c with
      | some s => acc ++ [s]
      | none => acc
  | _ => acc

/-- The suggestion list in symbol-iteration order, before sorting. -/
def buildSuggestions (chainId : String) (m : MarketAnalysis) : List Suggestion :=
  m.price_changes.foldl (buildStep chainId m) []

/-- Stable descending insertion step: `x` goes in front of the first
element whose confidence does not exceed it, hence before equal-confidence
elements that came later in the original list. -/
def insertDesc (x : Suggestion) : List Suggestion → List Suggestion
  | [] => [x]
  | y :: ys => if x.confidence < y.confidence then y :: insertDesc x ys else x :: y :: ys

/-- Python's `sorted(suggestions, key=lambda x: x["confidence"],
reverse=True)`: a stable sort by confidence descending. Any stable sort
with this comparator yields the same list, so structural insertion sort
models Timsort exactly. -/
def sortByConfDesc : List Suggestion → List Suggestion
  | [] => []
  | x :: xs => insertDesc x (sortByConfDesc xs)

/-- Sort by confidence descending (stable) and truncate to the top 5. -/
def rankSuggestions (chainId : String) (m : MarketAnalysis) : List Suggestion :=
  (sortByConfDesc (buildSuggestions chainId m)).take 5

/-- `suggest_trades`: validate/normalize the chain, analyze the market,
build, rank and truncate. -/
def suggest_trades (chain : String) (trades : List TradeRecord) : Option (List Suggestion) :=
  match get_chain_id chain with
  | none => none
  | some cid => some (rankSuggestions cid (analyze_market trades))

/-- The acceptance instance of C1: a snapshot with change −6, volume 15000,
60 trades and 6 distinct pairs. -/
def sampleAnalysis : MarketAnalysis :=
  { total_trades := 60, volume_24h := 15000,
    active_pairs := [("A", "B"), ("C", "D"), ("E", "F"), ("G", "H"), ("I", "J"), ("K", "L")],
    active_dexes := [],
    price_changes := [("TKN", [("change_24h", PyVal.num (-6))])] }

example :
    mkSuggestionFor "eth" sampleAnalysis "TKN" (-6) =
      some ⟨"TKN", "buy", 100, "https://dexrabbit.com/eth/pair/TKN/ETH"⟩ := by decide
example :
    rankSuggestions "eth" sampleAnalysis =
      [⟨"TKN", "buy", 100, "https://dexrabbit.com/eth/pair/TKN/ETH"⟩] := by decide
example : timeAgo (epochOfUTC 2024 1 1 12 0 0) 60 = epochOfUTC 2024 1 1 11 0 0 := by decide

/-! ### Helper lemmas -/

/-- Membership in an insertion step. -/
lemma mem_insertDesc {x z : Suggestion} {l : List Suggestion} :
    z ∈ insertDesc x l ↔ z = x ∨ z ∈ l := by
  induction l with
  | nil => simp [insertDesc]
  | cons y ys ih =>
      simp only [insertDesc]
      split <;> simp only [List.mem_cons, ih] <;> tauto

/-- An insertion step preserves descending order by confidence. -/
lemma pairwise_insertDesc {x : Suggestion} {l : List Suggestion}
    (h : l.Pairwise (fun a b => b.confidence ≤ a.confidence)) :
    (insertDesc x l).Pairwise (fun a b => b.confidence ≤ a.confidence) := by
  induction l with
  | nil => simp [insertDesc]
  | cons y ys ih =>
      rcases List.pairwise_cons.mp h with ⟨hy, hys⟩
      simp only [insertDesc]
      split
      · rename_i hlt
        refine List.pairwise_cons.mpr ⟨?_, ih hys⟩
        intro z hz
        rcases mem_insertDesc.mp hz with rfl | hz
        · omega
        · exact hy z hz
      · rename_i hge
        refine List.pairwise_cons.mpr ⟨?_, h⟩
        intro z hz
        rcases List.mem_cons.mp hz with rfl | hz
        · omega
        · exact le_trans (hy z hz) (by omega)

/-- The sorted suggestion list is descending by confidence. -/
lemma pairwise_sortByConfDesc (l : List Suggestion) :
    (sortByConfDesc l).Pairwise (fun a b => b.confidence ≤ a.confidence) := by
  induction l with
  | nil => simp [sortByConfDesc]
  | cons x xs ih => exact pairwise_insertDesc ih

/-- Membership in the sorted list. -/
lemma mem_sortByConfDesc {z : Suggestion} {l : List Suggestion} :
    z ∈ sortByConfDesc l ↔ z ∈ l := by
  induction l with
  | nil => simp [sortByConfDesc]
  | cons x xs ih => simp [sortByConfDesc, mem_insertDesc, ih]

/-- Stability of an insertion step, per confidence class: the inserted
element lands after every already-present element of its own class. -/
lemma filter_insertDesc (n : Nat) (x : Suggestion) (l : List Suggestion) :
    (insertDesc x l).filter (fun s => s.confidence == n) =
      ((if x.confidence = n then [x] else []) : List Suggestion) ++
        l.filter (fun s => s.confidence == n) := by
  induction l with
  | nil =>
      by_cases hx : x.confidence = n <;> simp [insertDesc, hx]
  | cons y ys ih =>
      simp only [insertDesc]
      split
      · rename_i hlt
        by_cases hy : y.confidence = n
        · have hx : ¬ x.confidence = n := by omega
          simp [List.filter_cons, hx, hy, ih]
        · by_cases hx : x.confidence = n <;> simp [List.filter_cons, hx, hy, ih]
      · by_cases hx : x.confidence = n <;> by_cases hy : y.confidence = n <;>
          simp [List.filter_cons, hx, hy]

/-- Stability of the whole sort: each confidence class keeps its original
relative order. -/
lemma filter_sortByConfDesc (n : Nat) (l : List Suggestion) :
    (sortByConfDesc l).filter (fun s => s.confidence == n) =
      l.filter (fun s => s.confidence == n) := by
  induction l with
  | nil => simp [sortByConfDesc]
  | cons x xs ih =>
      simp only [sortByConfDesc, filter_insertDesc, ih]
      by_cases hx : x.confidence = n <;> simp [List.filter_cons, hx]

/-- An accepted suggestion passed the 60-point gate. -/
lemma mkSuggestionFor_conf_ge {cid : String} {m : MarketAnalysis} {sym : String}
    {c : Rat} {s : Suggestion} (h : mkSuggestionFor cid m sym c = some s) :
    60 ≤ s.confidence := by
  simp only [mkSuggestionFor] at h
  split at h
  · rename_i h60
    split at h
    · exact absurd h (by simp)
    · split at h
      · exact absurd h (by simp)
      · obtain rfl := (Option.some.inj h).symm
        exact h60
  · exact absurd h (by simp)

/-- Elements produced by one loop iteration. -/
lemma mem_buildStep {cid : String} {m : MarketAnalysis} {acc : List Suggestion}
    {p : String × List (String × PyVal)} {s : Suggestion}
    (h : s ∈ buildStep cid m acc p) : s ∈ acc ∨ 60 ≤ s.confidence := by
  unfold buildStep at h
  split at h
  · split at h
    · rename_i hmk
      rcases List.mem_append.mp h with h' | h'
      · exact Or.inl h'
      · obtain rfl := List.mem_singleton.mp h'
        exact Or.inr (mkSuggestionFor_conf_ge hmk)
    · exact Or.inl h
  · exact Or.inl h

/-- Elements of the folded suggestion loop. -/
lemma mem_foldl_buildStep {cid : String} {m : MarketAnalysis} {s : Suggestion} :
    ∀ (l : List (String × List (String × PyVal))) (acc : List Suggestion),
      s ∈ l.foldl (buildStep cid m) acc → s ∈ acc ∨ 60 ≤ s.confidence := by
  intro l
  induction l with
  | nil => intro acc h; exact Or.inl h
  | cons p ps ih =>
      intro acc h
      rcases ih (buildStep cid m acc p) h with h' | h'
      · exact mem_buildStep h'
      · exact Or.inr h'

/-- Every built suggestion passed the gate. -/
lemma mem_buildSuggestions {cid : String} {m : MarketAnalysis} {s : Suggestion}
    (h : s ∈ buildSuggestions cid m) : 60 ≤ s.confidence := by
  rcases mem_foldl_buildStep m.price_changes [] h with h' | h'
  · exact absurd h' (List.not_mem_nil s)
  · exact h'

/-- The action literal chosen by sign of the change. -/
lemma action_iff (change : Rat) :
    ((if change < 0 then "buy" else "sell") = "sell" ↔ 0 ≤ change)
    ∧ ((if change < 0 then "buy" else "sell") = "buy" ↔ change < 0) := by
  by_cases hc : change < 0
  · rw [if_pos hc]
    exact ⟨iff_of_false (by decide) (not_le.mpr hc), iff_of_true rfl hc⟩
  · rw [if_neg hc]
    exact ⟨iff_of_true rfl (not_lt.mp hc), iff_of_false (by decide) hc⟩

/-! ### The claims -/

/-- C1: for every symbol the suggestion loop accepts, confidence is exactly
the additive sum of the four fired signal contributions (20 for
`|change| > 5`, 30 for volume `> 10000`, 25 for `> 50` trades, 25 for
`> 5` distinct pairs) and the action is `"sell"` iff the change is ≥ 0,
`"buy"` iff it is negative; on the snapshot with change −6, volume 15000,
60 trades and 6 pairs the suggestion has confidence 100 and action
`"buy"`. -/
theorem suggestion_confidence_sum_and_action (cid : String) (m : MarketAnalysis)
    (symbol : String) (change : Rat) (s : Suggestion)
    (h : mkSuggestionFor cid m symbol change = some s) :
    (s.confidence =
      (if 5 < |change| then 20 else 0) + (if 10000 < m.volume_24h then 30 else 0) +
        (if 50 < m.total_trades then 25 else 0) + (if 5 < m.active_pairs.length then 25 else 0))
    ∧ (s.action = "sell" ↔ 0 ≤ change) ∧ (s.action = "buy" ↔ change < 0)
    ∧ mkSuggestionFor "eth" sampleAnalysis "TKN" (-6) =
        some ⟨"TKN", "buy", 100, "https://dexrabbit.com/eth/pair/TKN/ETH"⟩ := by
  simp only [mkSuggestionFor] at h
  split at h
  · split at h
    · exact absurd h (by simp)
    · split at h
      · exact absurd h (by simp)
      · obtain rfl := (Option.some.inj h).symm
        exact ⟨rfl, (action_iff change).1, (action_iff change).2, by decide⟩
  · exact absurd h (by simp)

/-- Witness for C1 at the acceptance snapshot. -/
theorem suggestion_confidence_sum_and_action_witness :
    ((Suggestion.mk "TKN" "buy" 100 "https://dexrabbit.com/eth/pair/TKN/ETH").confidence =
      (if 5 < |(-6 : Rat)| then 20 else 0) +
        (if 10000 < sampleAnalysis.volume_24h then 30 else 0) +
        (if 50 < sampleAnalysis.total_trades then 25 else 0) +
        (if 5 < sampleAnalysis.active_pairs.length then 25 else 0))
    ∧ ((Suggestion.mk "TKN" "buy" 100 "https://dexrabbit.com/eth/pair/TKN/ETH").action = "sell" ↔
        (0 : Rat) ≤ -6)
    ∧ ((Suggestion.mk "TKN" "buy" 100 "https://dexrabbit.com/eth/pair/TKN/ETH").action = "buy" ↔
        (-6 : Rat) < 0)
    ∧ mkSuggestionFor "eth" sampleAnalysis "TKN" (-6) =
        some ⟨"TKN", "buy", 100, "https://dexrabbit.com/eth/pair/TKN/ETH"⟩ :=
  suggestion_confidence_sum_and_action "eth" sampleAnalysis "TKN" (-6)
    ⟨"TKN", "buy", 100, "https://dexrabbit.com/eth/pair/TKN/ETH"⟩ (by decide)

/-- C6: the ranked list holds at most 5 suggestions, each with confidence
at least 60, is sorted by confidence descending, and is the 5-element
prefix of a stable sort: every confidence class keeps its original
symbol-iteration order. -/
theorem rank_top5_sorted_stable (cid : String) (m : MarketAnalysis) :
    (rankSuggestions cid m).length ≤ 5
    ∧ (∀ s ∈ rankSuggestions cid m, 60 ≤ s.confidence)
    ∧ (rankSuggestions cid m).Pairwise (fun a b => b.confidence ≤ a.confidence)
    ∧ (∀ n : Nat, (sortByConfDesc (buildSuggestions cid m)).filter (fun s => s.confidence == n) =
        (buildSuggestions cid m).filter (fun s => s.confidence == n))
    ∧ rankSuggestions cid m = (sortByConfDesc (buildSuggestions cid m)).take 5 := by
  refine ⟨?_, ?_, ?_, ?_, rfl⟩
  · simpa [rankSuggestions] using Nat.min_le_left 5 (sortByConfDesc (buildSuggestions cid m)).length
  · intro s hs
    have h1 : s ∈ sortByConfDesc (buildSuggestions cid m) :=
      List.mem_of_mem_take hs
    exact mem_buildSuggestions (mem_sortByConfDesc.mp h1)
  · exact (pairwise_sortByConfDesc (buildSuggestions cid m)).sublist
      (List.take_sublist 5 _)
  · intro n
    exact filter_sortByConfDesc n (buildSuggestions cid m)

/-- Witness for C6 at the acceptance snapshot. -/
theorem rank_top5_sorted_stable_witness :
    (rankSuggestions "eth" sampleAnalysis).length ≤ 5 :=
  (rank_top5_sorted_stable "eth" sampleAnalysis).1

/-- A record whose buy amount fails `Decimal` parsing leaves the whole
accumulator unchanged (the per-trade `except` catches before any field was
touched). -/
lemma processTrade_skip (a : Analysis) (t : TradeRecord)
    (h : parseDecimal (rawOrZero t.buy.amount) = none) : processTrade a t = a := by
  unfold processTrade
  rw [h]

/-- No loop iteration touches `total_trades`. -/
lemma processTrade_total_trades (a : Analysis) (t : TradeRecord) :
    (processTrade a t).total_trades = a.total_trades := by
  simp only [processTrade]
  repeat' split
  all_goals rfl

/-- The fold keeps `total_trades` at its initial value. -/
lemma foldl_total_trades :
    ∀ (ts : List TradeRecord) (a : Analysis),
      (ts.foldl processTrade a).total_trades = a.total_trades := by
  intro ts
  induction ts with
  | nil => intro a; rfl
  | cons t ts ih =>
      intro a
      rw [List.foldl_cons, ih, processTrade_total_trades]

/-- A malformed record used in the partial-failure claims. -/
def badTrade : TradeRecord :=
  ⟨⟨some "not-a-number", some "BAD", none⟩, ⟨some "1", none, none⟩, none⟩

/-- A fully well-formed record. -/
def goodTrade : TradeRecord :=
  ⟨⟨some "100.5", some "ABC", some "1.5"⟩, ⟨some "3", some "XYZ", some "2"⟩, some "UniswapV3"⟩

/-- C3: aggregation never fails on a malformed record — a non-numeric buy
amount skips that record while the fold continues over the rest, the
reported trade count is always the input length, and such a record
contributes zero volume; concretely, a batch of one malformed and one good
record still counts 2 trades and collects only the good record's
volume. -/
theorem aggregation_survives_malformed_records :
    (∀ trades : List TradeRecord, (analyze_market trades).total_trades = trades.length)
    ∧ (∀ (a : Analysis) (t : TradeRecord), parseDecimal (rawOrZero t.buy.amount) = none →
        (processTrade a t).volume_24h = a.volume_24h)
    ∧ (∀ (init : Analysis) (pre post : List TradeRecord) (t : TradeRecord),
        parseDecimal (rawOrZero t.buy.amount) = none →
          (pre ++ t :: post).foldl processTrade init = (pre ++ post).foldl processTrade init)
    ∧ (analyze_market [badTrade, goodTrade]).total_trades = 2
    ∧ (analyze_market [badTrade, goodTrade]).volume_24h = 201 / 2 := by
  refine ⟨?_, ?_, ?_, by decide, by decide⟩
  · intro trades
    show (aggregatePass trades).total_trades = trades.length
    unfold aggregatePass
    rw [foldl_total_trades]
  · intro a t h
    rw [processTrade_skip a t h]
  · intro init pre post t h
    rw [List.foldl_append, List.foldl_append, List.foldl_cons, processTrade_skip _ t h]

/-- Witness for C3: the malformed record leaves an accumulator's volume
unchanged. -/
theorem aggregation_survives_malformed_records_witness :
    (processTrade ⟨0, 0, [], [], []⟩ badTrade).volume_24h = (Analysis.mk 0 0 [] [] []).volume_24h :=
  aggregation_survives_malformed_records.2.1 ⟨0, 0, [], [], []⟩ badTrade (by decide)

/-- C10: when the buy amount fails to parse, none of the record's other
contributions happen either — pair set, venue set and price series are all
untouched because the whole per-record step is skipped. -/
theorem malformed_amount_has_no_side_contributions (a : Analysis) (t : TradeRecord)
    (h : parseDecimal (rawOrZero t.buy.amount) = none) :
    (processTrade a t).active_pairs = a.active_pairs
    ∧ (processTrade a t).active_dexes = a.active_dexes
    ∧ (processTrade a t).price_changes = a.price_changes
    ∧ processTrade a t = a := by
  rw [processTrade_skip a t h]
  exact ⟨rfl, rfl, rfl, rfl⟩

/-- Witness for C10 at a concrete accumulator and the malformed record. -/
theorem malformed_amount_has_no_side_contributions_witness :
    processTrade ⟨5, 7, [("A", "B")], ["dex"], [("A", [2])]⟩ badTrade =
      (Analysis.mk 5 7 [("A", "B")] ["dex"] [("A", [2])]) :=
  (malformed_amount_has_no_side_contributions
    ⟨5, 7, [("A", "B")], ["dex"], [("A", [2])]⟩ badTrade (by decide)).2.2.2

/-- Appending a positive price keeps every stored price positive. -/
lemma appendPrice_pos {s : String} {q : Rat} (hq : 0 < q) :
    ∀ (m : List (String × List Rat)), (∀ p ∈ m, ∀ r ∈ p.2, 0 < r) →
      ∀ p ∈ appendPrice m s q, ∀ r ∈ p.2, 0 < r := by
  intro m
  induction m with
  | nil =>
      intro _ p hp
      simp only [appendPrice, List.mem_singleton] at hp
      subst hp
      intro r hr
      rw [List.mem_singleton] at hr
      subst hr
      exact hq
  | cons kv rest ih =>
      obtain ⟨k, ps⟩ := kv
      intro hm p hp
      have hhead : ∀ r ∈ ps, 0 < r := hm (k, ps) (List.mem_cons_self _ _)
      have hrest : ∀ p ∈ rest, ∀ r ∈ p.2, 0 < r :=
        fun p hp => hm p (List.mem_cons_of_mem _ hp)
      simp only [appendPrice] at hp
      split at hp
      · rcases List.mem_cons.mp hp with rfl | hp'
        · intro r hr
          rcases List.mem_append.mp hr with hr' | hr'
          · exact hhead r hr'
          · rw [List.mem_singleton] at hr'
            subst hr'
            exact hq
        · exact hrest p hp'
      · rcases List.mem_cons.mp hp with rfl | hp'
        · exact hhead
        · exact ih hrest p hp'

/-- A loop iteration either leaves the series map unchanged or appends one
strictly positive price (the write is guarded by `price > 0`). -/
lemma processTrade_price_changes (a : Analysis) (t : TradeRecord) :
    (processTrade a t).price_changes = a.price_changes ∨
      ∃ sym q, 0 < q ∧
        (processTrade a t).price_changes = appendPrice a.price_changes sym q := by
  unfold processTrade
  rcases parseDecimal (rawOrZero t.buy.amount) with _ | amt
  · exact Or.inl rfl
  · rcases hb : t.buy.symbol with _ | bs <;>
      rcases hs : t.sell.symbol with _ | ss <;>
      rcases hd : t.dexName with _ | d <;>
      rcases hp : parseDecimal (rawOrZero t.buy.price) with _ | q <;>
      dsimp only <;>
      first
        | exact Or.inl rfl
        | (split_ifs <;>
            first
              | exact Or.inl rfl
              | exact Or.inr ⟨bs, q, And.right (by assumption : bs ≠ "" ∧ 0 < q), rfl⟩)

/-- One loop iteration keeps every stored price positive. -/
lemma processTrade_pos (a : Analysis) (t : TradeRecord)
    (hm : ∀ p ∈ a.price_changes, ∀ r ∈ p.2, 0 < r) :
    ∀ p ∈ (processTrade a t).price_changes, ∀ r ∈ p.2, 0 < r := by
  rcases processTrade_price_changes a t with h | ⟨sym, q, hq, h⟩
  · rw [h]
    exact hm
  · rw [h]
    exact appendPrice_pos hq _ hm

/-- The fold keeps every stored price positive. -/
lemma foldl_pos :
    ∀ (ts : List TradeRecord) (a : Analysis),
      (∀ p ∈ a.price_changes, ∀ r ∈ p.2, 0 < r) →
      ∀ p ∈ (ts.foldl processTrade a).price_changes, ∀ r ∈ p.2, 0 < r := by
  intro ts
  induction ts with
  | nil => intro a hm; exact hm
  | cons t ts ih =>
      intro a hm
      exact ih (processTrade a t) (processTrade_pos a t hm)

/-- C9: every price collected into a symbol's series is strictly positive
(the `symbol and price > 0` filter), so the head of every non-empty series
is non-zero and the zero-divisor fallback of the change derivation can
never fire on aggregated data: with ≥ 2 prices the derivation always takes
the division branch. -/
theorem price_series_all_positive (trades : List TradeRecord) :
    (∀ p ∈ (aggregatePass trades).price_changes, ∀ r ∈ p.2, 0 < r)
    ∧ (∀ p ∈ (aggregatePass trades).price_changes, p.2 ≠ [] → p.2.headD 0 ≠ 0)
    ∧ (∀ p ∈ (aggregatePass trades).price_changes, 2 ≤ p.2.length →
        change24h p.2 = (p.2.getLastD 0 - p.2.headD 0) / p.2.headD 0 * 100) := by
  have hpos : ∀ p ∈ (aggregatePass trades).price_changes, ∀ r ∈ p.2, 0 < r :=
    foldl_pos trades _ (fun p hp => absurd hp (List.not_mem_nil p))
  have hhead : ∀ p ∈ (aggregatePass trades).price_changes, p.2 ≠ [] → p.2.headD 0 ≠ 0 := by
    intro p hp hne
    cases hq : p.2 with
    | nil => exact absurd hq hne
    | cons q qs =>
        have : 0 < q := hpos p hp q (hq ▸ List.mem_cons_self q qs)
        simpa using ne_of_gt this
  refine ⟨hpos, hhead, ?_⟩
  intro p hp hlen
  have hne : p.2 ≠ [] := by
    intro hnil
    rw [hnil] at hlen
    simp at hlen
  unfold change24h change24hCalc
  rw [if_pos hlen, if_neg (hhead p hp hne)]

/-- Witness for C9 on a concrete aggregated batch. -/
theorem price_series_all_positive_witness :
    (0 : Rat) < 3 / 2 :=
  (price_series_all_positive [goodTrade]).1 ("ABC", [3 / 2]) (by decide) (3 / 2) (by decide)

/-- A successful association-list lookup exhibits a member. -/
lemma lookup_mem {β : Type} {l : List (String × β)} {k : String} {v : β}
    (h : l.lookup k = some v) : (k, v) ∈ l := by
  induction l with
  | nil => simp [List.lookup] at h
  | cons kv rest ih =>
      obtain ⟨k0, v0⟩ := kv
      simp only [List.lookup] at h
      split at h
      · rename_i hbeq
        obtain rfl := Option.some.inj h
        obtain rfl : k = k0 := by simpa using hbeq
        exact List.mem_cons_self _ _
      · exact List.mem_cons_of_mem _ (ih h)

/-- Every registered alias value is a supported canonical id. -/
lemma alias_lookup_supported {c v : String} (h : CHAIN_ALIASES.lookup c = some v) :
    (SUPPORTED_CHAINS.lookup v).isSome := by
  have hm := lookup_mem h
  fin_cases hm <;> decide

/-- A chain id with a registry entry is one of the ten canonical ids. -/
lemma supported_cases {cid : String} (h : (SUPPORTED_CHAINS.lookup cid).isSome) :
    cid = "solana" ∨ cid = "eth" ∨ cid = "tron" ∨ cid = "ton" ∨ cid = "base" ∨
      cid = "matic" ∨ cid = "bsc" ∨ cid = "opbnb" ∨ cid = "optimism" ∨ cid = "arbitrum" := by
  rcases ho : SUPPORTED_CHAINS.lookup cid with _ | cfg
  · rw [ho] at h
    simp at h
  · have hm := lookup_mem ho
    fin_cases hm <;> simp

/-- A resolved chain id has a registry entry. -/
lemma get_chain_id_lookup_isSome {chain cid : String}
    (h : get_chain_id chain = some cid) : (SUPPORTED_CHAINS.lookup cid).isSome := by
  simp only [get_chain_id] at h
  split at h
  · rename_i hs
    exact (Option.some.inj h) ▸ hs
  · exact absurd h (by simp)

/-- Canonical ids resolve to themselves (no alias shadows a canonical id). -/
lemma canonical_resolves_self {cid : String} {cfg : ChainConfig}
    (h : SUPPORTED_CHAINS.lookup cid = some cfg) : get_chain_id cid = some cid := by
  have hm := lookup_mem h
  fin_cases hm <;> decide

/-- C4: chain resolution lowercases and strips the input before lookup
(resolution depends only on the normalized string), consults the alias
table before the canonical table, maps every registered alias and every
canonical id to its canonical id, and fails exactly when the normalized
string is neither a registered alias nor a canonical id. -/
theorem chain_resolution_normalizes_alias_first :
    (∀ p ∈ CHAIN_ALIASES, get_chain_id p.1 = some p.2)
    ∧ (∀ p ∈ SUPPORTED_CHAINS, get_chain_id p.1 = some p.1)
    ∧ (∀ s t : String, pyStrip (pyLower s) = pyStrip (pyLower t) →
        get_chain_id s = get_chain_id t)
    ∧ (∀ s : String, get_chain_id s = none ↔
        (CHAIN_ALIASES.lookup (pyStrip (pyLower s)) = none ∧
          SUPPORTED_CHAINS.lookup (pyStrip (pyLower s)) = none))
    ∧ get_chain_id "  ETHEREUM " = some "eth" := by
  refine ⟨by decide, by decide, ?_, ?_, by decide⟩
  · intro s t h
    unfold get_chain_id normalize_chain_name
    rw [h]
  · intro s
    simp only [get_chain_id, normalize_chain_name]
    rcases ha : CHAIN_ALIASES.lookup (pyStrip (pyLower s)) with _ | v
    · rw [Option.getD_none]
      rcases hs : SUPPORTED_CHAINS.lookup (pyStrip (pyLower s)) with _ | cfg <;> simp
    · rw [Option.getD_some]
      have hv := alias_lookup_supported ha
      simp [hv]

/-- Witness for C4: resolution is insensitive to case and surrounding
whitespace. -/
theorem chain_resolution_normalizes_alias_first_witness :
    get_chain_id "  ETH " = get_chain_id "eth" :=
  chain_resolution_normalizes_alias_first.2.2.1 "  ETH " "eth" (by decide)

/-- C5: for every resolvable chain the built request is family-specific —
an EVM-family chain (canonical id outside solana/tron/ton) gets the
`network` variable carrying the lowercase chain id and the token field
`SmartContract`; solana/tron/ton omit `network` and use `MintAddress`
(solana) or `Address` (tron, ton). -/
theorem query_family_branching (chain cid : String) (now tw : Int)
    (h : get_chain_id chain = some cid) :
    ∃ q : QuerySpec, get_chain_activity_query chain now tw = some q
      ∧ (cid ≠ "solana" → cid ≠ "tron" → cid ≠ "ton" →
          q.ns = "EVM" ∧ q.addressField = "SmartContract" ∧
            q.network = some (pyLower cid) ∧ pyLower cid = cid)
      ∧ (cid = "solana" → q.ns = "Solana" ∧ q.addressField = "MintAddress" ∧ q.network = none)
      ∧ (cid = "tron" → q.ns = "Tron" ∧ q.addressField = "Address" ∧ q.network = none)
      ∧ (cid = "ton" → q.ns = "TON" ∧ q.addressField = "Address" ∧ q.network = none) := by
  have hmem := supported_cases (get_chain_id_lookup_isSome h)
  unfold get_chain_activity_query
  rw [h]
  refine ⟨_, rfl, ?_, ?_, ?_, ?_⟩ <;>
    rcases hmem with rfl | rfl | rfl | rfl | rfl | rfl | rfl | rfl | rfl | rfl <;>
    first
      | (intro h1
         exact absurd rfl h1)
      | (intro h1 h2
         exact absurd rfl h2)
      | (intro h1 h2 h3
         exact absurd rfl h3)
      | (intro h1 h2 h3
         exact ⟨rfl, rfl, rfl, rfl⟩)
      | (intro h
         exact absurd h (by decide))
      | (intro h
         exact ⟨rfl, rfl, rfl⟩)

/-- Witness for C5 on the canonical EVM chain and on solana. -/
theorem query_family_branching_witness :
    (∃ q : QuerySpec, get_chain_activity_query "eth" 0 60 = some q
      ∧ ("eth" ≠ "solana" → "eth" ≠ "tron" → "eth" ≠ "ton" →
          q.ns = "EVM" ∧ q.addressField = "SmartContract" ∧
            q.network = some (pyLower "eth") ∧ pyLower "eth" = "eth")
      ∧ ("eth" = "solana" → q.ns = "Solana" ∧ q.addressField = "MintAddress" ∧ q.network = none)
      ∧ ("eth" = "tron" → q.ns = "Tron" ∧ q.addressField = "Address" ∧ q.network = none)
      ∧ ("eth" = "ton" → q.ns = "TON" ∧ q.addressField = "Address" ∧ q.network = none))
    ∧ (∃ q : QuerySpec, get_chain_activity_query "solana" 0 60 = some q
      ∧ ("solana" ≠ "solana" → "solana" ≠ "tron" → "solana" ≠ "ton" →
          q.ns = "EVM" ∧ q.addressField = "SmartContract" ∧
            q.network = some (pyLower "solana") ∧ pyLower "solana" = "solana")
      ∧ ("solana" = "solana" → q.ns = "Solana" ∧ q.addressField = "MintAddress" ∧ q.network = none)
      ∧ ("solana" = "tron" → q.ns = "Tron" ∧ q.addressField = "Address" ∧ q.network = none)
      ∧ ("solana" = "ton" → q.ns = "TON" ∧ q.addressField = "Address" ∧ q.network = none)) :=
  ⟨query_family_branching "eth" "eth" 0 60 (by decide),
   query_family_branching "solana" "solana" 0 60 (by decide)⟩

/-- C7: the query's time boundary is exactly the injected `now` minus
`lookback_minutes` minutes, for every positive lookback; in particular
60 minutes before 2024-01-01T12:00:00Z is 2024-01-01T11:00:00Z. -/
theorem since_is_now_minus_lookback (chain cid : String) (now w : Int)
    (h : get_chain_id chain = some cid) (hw : 0 < w) :
    (∃ q : QuerySpec, get_chain_activity_query chain now w = some q ∧ q.since = now - w * 60)
    ∧ timeAgo (epochOfUTC 2024 1 1 12 0 0) 60 = epochOfUTC 2024 1 1 11 0 0 := by
  constructor
  · unfold get_chain_activity_query
    rw [h]
    exact ⟨_, rfl, rfl⟩
  · decide

/-- Witness for C7 at the fixed clock of the acceptance test. -/
theorem since_is_now_minus_lookback_witness :
    (∃ q : QuerySpec,
        get_chain_activity_query "eth" (epochOfUTC 2024 1 1 12 0 0) 60 = some q
          ∧ q.since = epochOfUTC 2024 1 1 12 0 0 - 60 * 60)
    ∧ timeAgo (epochOfUTC 2024 1 1 12 0 0) 60 = epochOfUTC 2024 1 1 11 0 0 :=
  since_is_now_minus_lookback "eth" "eth" (epochOfUTC 2024 1 1 12 0 0) 60 (by decide) (by decide)

/-- C8: for every resolvable chain the trading URL is the pure string
template `base ++ "/" ++ url_path ++ "/pair/" ++ tokenA ++ "/" ++ tokenB`
(no network call — `format_trade_url` is a pure function), and every
emitted suggestion's URL instantiates it with the symbol and the chain's
native token. -/
theorem reference_url_is_pure_template (chain cid : String) (cfg : ChainConfig)
    (tokenA tokenB : String)
    (h : get_chain_id chain = some cid) (hcfg : SUPPORTED_CHAINS.lookup cid = some cfg) :
    format_trade_url chain tokenA tokenB =
      some ("https://dexrabbit.com/" ++ cfg.url_path ++ "/pair/" ++ tokenA ++ "/" ++ tokenB)
    ∧ (∀ (m : MarketAnalysis) (sym : String) (c : Rat) (s : Suggestion),
        mkSuggestionFor cid m sym c = some s →
          s.trade_url = "https://dexrabbit.com/" ++ cfg.url_path ++ "/pair/" ++ sym ++ "/" ++
            cfg.native_token) := by
  have hself : get_chain_id cid = some cid := canonical_resolves_self hcfg
  have hurl : ∀ a b : String, format_trade_url cid a b =
      some ("https://dexrabbit.com/" ++ cfg.url_path ++ "/pair/" ++ a ++ "/" ++ b) := by
    intro a b
    simp only [format_trade_url, hself, hcfg]
  constructor
  · simp only [format_trade_url, h, hcfg]
  · intro m sym c s hs
    simp only [mkSuggestionFor] at hs
    split at hs
    · rw [hcfg] at hs
      simp only [hurl] at hs
      obtain rfl := (Option.some.inj hs).symm
      rfl
    · exact absurd hs (by simp)

/-- Witness for C8 on the canonical "eth" registry entry. -/
theorem reference_url_is_pure_template_witness :
    format_trade_url "eth" "TKN" "ETH" =
      some ("https://dexrabbit.com/" ++ "eth" ++ "/pair/" ++ "TKN" ++ "/" ++ "ETH") :=
  (reference_url_is_pure_template "eth" "eth"
    ⟨"Ethereum", "eth", "ETH", "https://etherscan.io"⟩ "TKN" "ETH"
    (by decide) (by decide)).1

/-- C2 counterexample: for a one-price series the derived per-symbol entry
is zero change but carries no `insufficient_data` flag — its only key is
`change_24h`; likewise the zero-divisor case is a bare flagless zero. -/
theorem insufficient_data_flag_counterexample :
    (derivePriceEntry [100]).lookup "change_24h" = some (PyVal.num 0)
    ∧ (derivePriceEntry [100]).lookup "insufficient_data" = none
    ∧ (derivePriceEntry [100]).map Prod.fst = ["change_24h"]
    ∧ (derivePriceEntry [0, 50]).lookup "insufficient_data" = none := by decide

/-- C2 (amended): with ≥ 2 prices and a non-zero first price the derived
change is exactly `(last − first) / first × 100`; with fewer than 2 prices
the entry stays zero (no flag of any kind is recorded); a zero first price
yields a zero change for that symbol only, the derivation of the other
symbols in the batch being untouched. -/
theorem price_change_derivation_amended (prices : List Rat) :
    (2 ≤ prices.length → prices.headD 0 ≠ 0 →
        derivePriceEntry prices =
          [("change_24h",
            PyVal.num ((prices.getLastD 0 - prices.headD 0) / prices.headD 0 * 100))])
    ∧ (prices.length < 2 → derivePriceEntry prices = [("change_24h", PyVal.num 0)])
    ∧ (2 ≤ prices.length → prices.headD 0 = 0 →
        derivePriceEntry prices = [("change_24h", PyVal.num 0)])
    ∧ ([("AAA", [(0 : Rat), 50]), ("BBB", [100, 110])].map
        (fun p => (p.1, derivePriceEntry p.2))) =
        [("AAA", [("change_24h", PyVal.num 0)]), ("BBB", [("change_24h", PyVal.num 10)])] := by
  refine ⟨?_, ?_, ?_, by decide⟩
  · intro hlen h0
    have hcalc : change24hCalc prices =
        (prices.getLastD 0 - prices.headD 0) / prices.headD 0 * 100 := by
      simp only [change24hCalc]
      rw [if_neg h0]
    simp only [derivePriceEntry]
    rw [if_pos hlen, hcalc]
    rfl
  · intro hlen
    have hn : ¬ 2 ≤ prices.length := by omega
    simp only [derivePriceEntry]
    rw [if_neg hn]
    rfl
  · intro hlen h0
    have hcalc : change24hCalc prices = 0 := by
      simp only [change24hCalc]
      rw [if_pos h0]
    simp only [derivePriceEntry]
    rw [if_pos hlen, hcalc]
    rfl

/-- Witness for the amended C2 at the `[100, 110]` acceptance series. -/
theorem price_change_derivation_amended_witness :
    derivePriceEntry [(100 : Rat), 110] =
      [("change_24h",
        PyVal.num (([(100 : Rat), 110].getLastD 0 - [(100 : Rat), 110].headD 0) /
          [(100 : Rat), 110].headD 0 * 100))] :=
  (price_change_derivation_amended [100, 110]).1 (by decide) (by decide)
